import Mathlib

/-!
Shallow embedding of `src/cogs/shared/collections.py`, centred on
`ObservableAsyncQueue`, a subclass of `asyncio.Queue` (Python 3.6) that adds a
cached snapshot (`view`, a `cached_property` holding `self._queue.copy()`),
cache invalidation in `_put`/`_get`, a `unshift` coroutine (appendleft with the
producer-side waiting loop copied from `asyncio.Queue.put`), a `pop` coroutine
(`self._queue.pop()` plus cache invalidation), and `__setitem__` raising
`NotImplementedError`.

Items are modelled as naturals.  Futures created for suspended waiters are
modelled by identifiers carrying a status (pending / woken / cancelled); the
waiter lists `_getters` and `_putters` hold those identifiers in FIFO order.
The cached snapshot is an `Option (List Nat)`.
-/

namespace TheAlchemist

/-- Status of an `asyncio` future used as a waiter: `pending` before anything
happened, `woken` once `set_result` ran, `cancelled` once `cancel` succeeded. -/
inductive FutStatus where
  | pending
  | woken
  | cancelledFut
deriving DecidableEq, Repr

/-- Errors surfaced by the queue operations. -/
inductive QErr where
  | queueFull
  | queueEmpty
  | indexError
  | cancelledErr
  | notImplemented
deriving DecidableEq, Repr

/-- State of an `ObservableAsyncQueue`: `maxsize` as passed to the constructor
(any integer; non-positive means unbounded in `asyncio`), the deque `_queue`
(head = front), the waiter deques `_getters` and `_putters` (head = earliest),
the status of every future id, the cached `view` snapshot, and the
`_unfinished_tasks` counter. -/
structure OAQueue where
  maxsize : Int
  queue : List Nat
  getters : List Nat
  putters : List Nat
  futs : Nat → FutStatus
  cache : Option (List Nat)
  unfinished : Nat

/-- `asyncio.Queue.__init__(maxsize)`: stores `maxsize` unchanged (no
validation), empty deque, empty waiter lists, zero unfinished tasks. -/
def mkQueue (maxsize : Int) : OAQueue :=
  { maxsize := maxsize
    queue := []
    getters := []
    putters := []
    futs := fun _ => FutStatus.pending
    cache := none
    unfinished := 0 }

/-- `qsize()`: `len(self._queue)`. -/
def qsize (s : OAQueue) : Nat := s.queue.length

/-- `full()`: `False` when `self._maxsize <= 0`, else `self.qsize() >= self._maxsize`. -/
def fullQ (s : OAQueue) : Bool :=
  if s.maxsize ≤ 0 then false else decide (s.maxsize ≤ (qsize s : Int))

/-- `empty()`: `not len(self._queue)`. -/
def emptyQ (s : OAQueue) : Bool := s.queue.isEmpty

/-- Pointwise update of the future-status map. -/
def setFut (f : Nat → FutStatus) (i : Nat) (v : FutStatus) : Nat → FutStatus :=
  fun j => if j = i then v else f j

/-- `Future.cancel()`: a pending future becomes cancelled; a done future
(woken or already cancelled) is unchanged. -/
def cancelFut : FutStatus → FutStatus
  | FutStatus.pending => FutStatus.cancelledFut
  | f => f

/-- `asyncio.Queue._wakeup_next(waiters)`: pop waiters from the left, skipping
done ones, and `set_result` on the first non-done one; returns the remaining
waiter list and the updated future statuses. -/
def wakeupNext : List Nat → (Nat → FutStatus) → List Nat × (Nat → FutStatus)
  | [], futs => ([], futs)
  | w :: rest, futs =>
    if futs w = FutStatus.pending then (rest, setFut futs w FutStatus.woken)
    else wakeupNext rest futs

/-- First waiter in the list whose future is still pending (the one
`_wakeup_next` would wake). -/
def firstPending : List Nat → (Nat → FutStatus) → Option Nat
  | [], _ => none
  | w :: rest, futs =>
    if futs w = FutStatus.pending then some w else firstPending rest futs

/-- `list.remove(x)` wrapped in try/except ValueError: removes the first
occurrence if present, otherwise leaves the list unchanged. -/
def removeFirst : List Nat → Nat → List Nat
  | [], _ => []
  | x :: rest, p => if x = p then rest else x :: removeFirst rest p

/-- `ObservableAsyncQueue._put`: `super()._put(item)` (append right), then
delete the cached `view` if present. -/
def oaPut (s : OAQueue) (x : Nat) : OAQueue :=
  { s with queue := s.queue ++ [x], cache := none }

/-- `ObservableAsyncQueue._get`: `super()._get()` (popleft), then delete the
cached `view` if present. -/
def oaGet (s : OAQueue) : Nat × OAQueue :=
  (s.queue.headD 0, { s with queue := s.queue.tail, cache := none })

/-- `asyncio.Queue.put_nowait(item)` with the subclass `_put`: raise
`QueueFull` when full, else `_put`, bump `_unfinished_tasks`, and
`_wakeup_next(self._getters)`. -/
def putNowait (s : OAQueue) (x : Nat) : Except QErr OAQueue :=
  if fullQ s then Except.error QErr.queueFull
  else
    let s1 := oaPut s x
    let w := wakeupNext s1.getters s1.futs
    Except.ok { s1 with unfinished := s1.unfinished + 1, getters := w.1, futs := w.2 }

/-- `asyncio.Queue.get_nowait()` with the subclass `_get`: raise `QueueEmpty`
when empty, else `_get` and `_wakeup_next(self._putters)`. -/
def getNowait (s : OAQueue) : Except QErr (Nat × OAQueue) :=
  if emptyQ s then Except.error QErr.queueEmpty
  else
    let r := oaGet s
    let w := wakeupNext r.2.putters r.2.futs
    Except.ok (r.1, { r.2 with putters := w.1, futs := w.2 })

/-- The coroutine `put` (`while self.full(): wait; return self.put_nowait(item)`)
restricted to the runs that complete without suspending: when the queue is
full the call suspends, modelled as `none`. -/
def putNow (s : OAQueue) (x : Nat) : Option OAQueue :=
  match putNowait s x with
  | Except.ok s1 => some s1
  | Except.error _ => none

/-- The coroutine `get` (`while self.empty(): wait; return self.get_nowait()`)
restricted to the runs that complete without suspending: when the queue is
empty the call suspends, modelled as `none`. -/
def getNow (s : OAQueue) : Option (Nat × OAQueue) :=
  match getNowait s with
  | Except.ok r => some r
  | Except.error _ => none

/-- `ObservableAsyncQueue.unshift` past its waiting loop: once the queue is
not full it runs `self._queue.appendleft(item)` and deletes the cached view.
It performs no `_wakeup_next(self._getters)` and does not touch
`_unfinished_tasks`.  A full queue suspends, modelled as `none`. -/
def unshiftNow (s : OAQueue) (x : Nat) : Option OAQueue :=
  if fullQ s then none
  else some { s with queue := x :: s.queue, cache := none }

/-- `ObservableAsyncQueue.pop`: `item = self._queue.pop()` (raises IndexError
on an empty deque), then delete the cached view; no waiter is woken. -/
def popOp (s : OAQueue) : Except QErr (Nat × OAQueue) :=
  match s.queue.getLast? with
  | none => Except.error QErr.indexError
  | some x => Except.ok (x, { s with queue := s.queue.dropLast, cache := none })

/-- The `except` handler of `unshift`'s waiting loop, entered when `await
putter` raised with future id `p`: `putter.cancel()`; remove `p` from
`self._putters` (ignoring ValueError); if the queue is not full and the future
is not cancelled, forward the wake with `_wakeup_next(self._putters)`; then
re-raise. -/
def unshiftCancel (s : OAQueue) (p : Nat) : QErr × OAQueue :=
  let f1 := setFut s.futs p (cancelFut (s.futs p))
  let s1 := { s with futs := f1, putters := removeFirst s.putters p }
  if fullQ s1 = false ∧ f1 p ≠ FutStatus.cancelledFut then
    let w := wakeupNext s1.putters s1.futs
    (QErr.cancelledErr, { s1 with putters := w.1, futs := w.2 })
  else
    (QErr.cancelledErr, s1)

/-- `ObservableAsyncQueue.view` (a `cached_property`): return the cached
snapshot if present, else compute `self._queue.copy()` and cache it.  Returns
the snapshot together with the post-access state. -/
def viewOp (s : OAQueue) : List Nat × OAQueue :=
  match s.cache with
  | some v => (v, s)
  | none => (s.queue, { s with cache := some s.queue })

/-- `ObservableAsyncQueue.__contains__`: membership in the snapshot view. -/
def containsOp (s : OAQueue) (x : Nat) : Bool × OAQueue :=
  let r := viewOp s
  (r.1.contains x, r.2)

/-- `ObservableAsyncQueue.__setitem__`: unconditionally raises
`NotImplementedError`; the state is returned unchanged since the raise happens
before any mutation. -/
def setitemOp (s : OAQueue) (_i : Nat) (_v : Nat) : Except QErr Unit × OAQueue :=
  (Except.error QErr.notImplemented, s)

/-- The four mutating operations of the claims. -/
inductive Op where
  | put (x : Nat)
  | get
  | unshift (x : Nat)
  | pop
deriving DecidableEq, Repr

/-- One completed operation: `none` when the operation cannot complete now
(`put`/`unshift` suspend on full, `get` suspends on empty, `pop` raises on
empty) — in all those cases the state is unchanged. -/
def applyOp (s : OAQueue) : Op → Option OAQueue
  | Op.put x => putNow s x
  | Op.get => (getNow s).map Prod.snd
  | Op.unshift x => unshiftNow s x
  | Op.pop =>
    match popOp s with
    | Except.ok r => some r.2
    | Except.error _ => none

/-- Run a sequence of operations; an operation that cannot complete leaves the
state unchanged. -/
def runOps (s : OAQueue) : List Op → OAQueue
  | [] => s
  | op :: rest => runOps ((applyOp s op).getD s) rest

/-- `enqueue(a); enqueue(b); enqueue(c)` followed by three `get()` calls,
collecting the three returned items. -/
def fifo3 (s : OAQueue) (a b c : Nat) : Option (List Nat) :=
  (putNow s a).bind fun s1 =>
    (putNow s1 b).bind fun s2 =>
      (putNow s2 c).bind fun s3 =>
        (getNow s3).bind fun r1 =>
          (getNow r1.2).bind fun r2 =>
            (getNow r2.2).map fun r3 => [r1.1, r2.1, r3.1]

/-- `push_front(a); push_front(b)` followed by two `get()` calls. -/
def unshift2get2 (s : OAQueue) (a b : Nat) : Option (List Nat) :=
  (unshiftNow s a).bind fun s1 =>
    (unshiftNow s1 b).bind fun s2 =>
      (getNow s2).bind fun r1 =>
        (getNow r1.2).map fun r2 => [r1.1, r2.1]

/-- `enqueue(a); enqueue(b)` followed by two `pop()` calls. -/
def put2pop2 (s : OAQueue) (a b : Nat) : Option (List Nat) :=
  (putNow s a).bind fun s1 =>
    (putNow s1 b).bind fun s2 =>
      (match popOp s2 with
        | Except.ok r1 =>
          match popOp r1.2 with
          | Except.ok r2 => some [r1.1, r2.1]
          | Except.error _ => none
        | Except.error _ => none)

/-!
Heap model for the snapshot claims: `view` returns `self._queue.copy()`, a
fresh deque object distinct from the live `_queue`.  To state immutability of
a returned snapshot under later queue mutations, deque objects are modelled
explicitly: `heap` is the list of allocated deque objects, address `0` is the
live `_queue` (mutated in place), `view` allocates a fresh address holding a
copy of address 0 and caches that address; mutations write address 0 only and
drop the cached address.
-/

/-- Object-level state: allocated deque objects (address 0 is `self._queue`),
the cached snapshot address, and `maxsize`. -/
structure SnapState where
  maxsize : Int
  heap : List (List Nat)
  cacheAddr : Option Nat

/-- Contents of the deque object at address `a`. -/
def heapAt (s : SnapState) (a : Nat) : List Nat := s.heap.getD a []

/-- The live `_queue` contents (address 0). -/
def sQueue (s : SnapState) : List Nat := heapAt s 0

/-- `full()` over the object-level state. -/
def sFull (s : SnapState) : Bool :=
  if s.maxsize ≤ 0 then false else decide (s.maxsize ≤ ((sQueue s).length : Int))

/-- An in-place mutation of `self._queue` (address 0) followed by deletion of
the cached view, as every mutating operation performs. -/
def sMut (s : SnapState) (f : List Nat → List Nat) : SnapState :=
  { s with heap := s.heap.set 0 (f (sQueue s)), cacheAddr := none }

/-- `view` over the object-level state: return the cached snapshot address if
present, else allocate a fresh object holding `self._queue.copy()` and cache
its address. -/
def viewH (s : SnapState) : Nat × SnapState :=
  match s.cacheAddr with
  | some a => (a, s)
  | none =>
    (s.heap.length,
      { s with heap := s.heap ++ [sQueue s], cacheAddr := some s.heap.length })

/-- The mutating operations over the object-level state; an operation that
suspends or raises leaves the state unchanged. -/
def applyOpH (s : SnapState) : Op → SnapState
  | Op.put x => if sFull s then s else sMut s (fun q => q ++ [x])
  | Op.get => if (sQueue s).isEmpty then s else sMut s List.tail
  | Op.unshift x => if sFull s then s else sMut s (fun q => x :: q)
  | Op.pop => if (sQueue s).isEmpty then s else sMut s List.dropLast

/-- Run a sequence of operations over the object-level state. -/
def runOpsH (s : SnapState) : List Op → SnapState
  | [] => s
  | op :: rest => runOpsH (applyOpH s op) rest

/-- Well-formedness of the object-level state: address 0 exists, and a cached
snapshot address is a valid non-zero address whose contents equal the live
queue (the cache is only kept while it is fresh). -/
def SnapInv (s : SnapState) : Prop :=
  1 ≤ s.heap.length ∧
    ∀ a, s.cacheAddr = some a → 1 ≤ a ∧ a < s.heap.length ∧ heapAt s a = sQueue s

/-- A queue of capacity 1 with one pending consumer waiter (future id 0):
the state left by a `get()` that suspended on the empty queue. -/
def waitingConsumerState : OAQueue :=
  { mkQueue 1 with getters := [0] }

/-- Future statuses with id 0 already woken and all others pending. -/
def c3futs : Nat → FutStatus :=
  setFut (fun _ => FutStatus.pending) 0 FutStatus.woken

/-- A non-full queue with two producer waiters: id 0 already woken (the
wake/cancel race) and id 1 still pending. -/
def c3state : OAQueue :=
  { maxsize := 2, queue := [9], getters := [], putters := [0, 1],
    futs := c3futs, cache := none, unfinished := 0 }

/-- The state after `put(4)` completes on `mkQueue 2`. -/
def c8state : OAQueue :=
  { maxsize := 2, queue := [4], getters := [], putters := [],
    futs := fun _ => FutStatus.pending, cache := none, unfinished := 1 }

/-- A concrete object-level state: live queue `[1, 2]`, no cached snapshot. -/
def snapExample : SnapState :=
  { maxsize := 0, heap := [[1, 2]], cacheAddr := none }

/-! ### Helper lemmas about the waiter machinery -/

theorem mem_of_mem_wakeupNext_fst (l : List Nat) (f : Nat → FutStatus) (x : Nat)
    (h : x ∈ (wakeupNext l f).1) : x ∈ l := by
  induction l with
  | nil => simp [wakeupNext] at h
  | cons w rest ih =>
    by_cases hw : f w = FutStatus.pending
    · simp only [wakeupNext, if_pos hw] at h
      exact List.mem_cons_of_mem _ h
    · simp only [wakeupNext, if_neg hw] at h
      exact List.mem_cons_of_mem _ (ih h)

theorem wakeupNext_wakes (l : List Nat) (f : Nat → FutStatus) (w : Nat)
    (h : firstPending l f = some w) : (wakeupNext l f).2 w = FutStatus.woken := by
  induction l with
  | nil => simp [firstPending] at h
  | cons w0 rest ih =>
    by_cases hw : f w0 = FutStatus.pending
    · simp only [firstPending, if_pos hw, Option.some.injEq] at h
      subst h
      simp [wakeupNext, if_pos hw, setFut]
    · simp only [firstPending, if_neg hw] at h
      simp only [wakeupNext, if_neg hw]
      exact ih h

theorem firstPending_congr (l : List Nat) (f g : Nat → FutStatus)
    (h : ∀ x ∈ l, f x = g x) : firstPending l f = firstPending l g := by
  induction l with
  | nil => rfl
  | cons w rest ih =>
    have hw := h w (List.mem_cons_self w rest)
    by_cases hp : f w = FutStatus.pending
    · simp [firstPending, hp, hw ▸ hp]
    · have hp2 : g w ≠ FutStatus.pending := fun hg => hp (hw ▸ hg)
      simp only [firstPending, if_neg hp, if_neg hp2]
      exact ih fun x hx => h x (List.mem_cons_of_mem _ hx)

theorem mem_of_mem_removeFirst (l : List Nat) (p x : Nat)
    (h : x ∈ removeFirst l p) : x ∈ l := by
  induction l with
  | nil => simp [removeFirst] at h
  | cons y rest ih =>
    by_cases hy : y = p
    · simp only [removeFirst, if_pos hy] at h
      exact List.mem_cons_of_mem _ h
    · simp only [removeFirst, if_neg hy] at h
      rcases List.mem_cons.mp h with h1 | h2
      · exact h1 ▸ List.mem_cons_self _ _
      · exact List.mem_cons_of_mem _ (ih h2)

theorem not_mem_removeFirst (l : List Nat) (p : Nat) (h : l.count p ≤ 1) :
    p ∉ removeFirst l p := by
  induction l with
  | nil => simp [removeFirst]
  | cons y rest ih =>
    by_cases hy : y = p
    · simp only [removeFirst, if_pos hy]
      subst hy
      have hc : rest.count y = 0 := by
        have := List.count_cons_self y rest
        omega
      exact List.count_eq_zero.mp hc
    · simp only [removeFirst, if_neg hy]
      intro hmem
      rcases List.mem_cons.mp hmem with h1 | h2
      · exact hy h1.symm
      · have hcount : rest.count p ≤ 1 := by
          have := List.count_cons p y rest
          simp [hy] at this
          omega
        exact ih hcount h2

/-! ### Helper lemmas about completed operations -/

theorem applyOp_maxsize (s : OAQueue) (op : Op) (s1 : OAQueue)
    (h : applyOp s op = some s1) : s1.maxsize = s.maxsize := by
  cases op with
  | put x =>
    by_cases hf : fullQ s
    · simp [applyOp, putNow, putNowait, hf] at h
    · simp only [applyOp, putNow, putNowait, if_neg hf] at h
      cases h
      rfl
  | get =>
    by_cases he : emptyQ s
    · simp [applyOp, getNow, getNowait, he] at h
    · simp only [applyOp, getNow, getNowait, if_neg he, Option.map] at h
      cases h
      rfl
  | unshift x =>
    by_cases hf : fullQ s
    · simp [applyOp, unshiftNow, hf] at h
    · simp only [applyOp, unshiftNow, if_neg hf, Option.some.injEq] at h
      cases h
      rfl
  | pop =>
    cases hq : s.queue.getLast? with
    | none => simp [applyOp, popOp, hq] at h
    | some x =>
      simp only [applyOp, popOp, hq, Option.some.injEq] at h
      cases h
      rfl

theorem applyOp_capacity (s : OAQueue) (op : Op) (s1 : OAQueue)
    (h : applyOp s op = some s1) (hpos : 0 < s.maxsize)
    (hle : (qsize s : Int) ≤ s.maxsize) : (qsize s1 : Int) ≤ s.maxsize := by
  have hnotfull : fullQ s = false → (qsize s : Int) + 1 ≤ s.maxsize := by
    intro hf
    simp only [fullQ, if_neg (by omega : ¬ s.maxsize ≤ 0), decide_eq_false_iff_not] at hf
    omega
  cases op with
  | put x =>
    by_cases hf : fullQ s
    · simp [applyOp, putNow, putNowait, hf] at h
    · simp only [applyOp, putNow, putNowait, if_neg hf] at h
      cases h
      have := hnotfull (by simpa using hf)
      simp only [qsize, oaPut, List.length_append, List.length_singleton] at *
      push_cast
      omega
  | get =>
    by_cases he : emptyQ s
    · simp [applyOp, getNow, getNowait, he] at h
    · simp only [applyOp, getNow, getNowait, if_neg he, Option.map] at h
      cases h
      simp only [qsize, oaGet] at *
      have : s.queue.tail.length ≤ s.queue.length := by
        cases s.queue <;> simp
      push_cast at *
      omega
  | unshift x =>
    by_cases hf : fullQ s
    · simp [applyOp, unshiftNow, hf] at h
    · simp only [applyOp, unshiftNow, if_neg hf, Option.some.injEq] at h
      cases h
      have := hnotfull (by simpa using hf)
      simp only [qsize, List.length_cons] at *
      push_cast
      omega
  | pop =>
    cases hq : s.queue.getLast? with
    | none => simp [applyOp, popOp, hq] at h
    | some x =>
      simp only [applyOp, popOp, hq, Option.some.injEq] at h
      cases h
      simp only [qsize] at *
      have : s.queue.dropLast.length ≤ s.queue.length := by
        simp [List.length_dropLast]
      push_cast at *
      omega

theorem runOps_capacity (ops : List Op) (s : OAQueue) (hpos : 0 < s.maxsize)
    (hle : (qsize s : Int) ≤ s.maxsize) :
    (qsize (runOps s ops) : Int) ≤ s.maxsize ∧ (runOps s ops).maxsize = s.maxsize := by
  induction ops generalizing s with
  | nil => exact ⟨hle, rfl⟩
  | cons op rest ih =>
    simp only [runOps]
    cases happ : applyOp s op with
    | none => simpa using ih s hpos hle
    | some s1 =>
      have hmax := applyOp_maxsize s op s1 happ
      have hcap := applyOp_capacity s op s1 happ hpos hle
      have := ih s1 (hmax ▸ hpos) (hmax ▸ hcap)
      simpa [hmax] using this

/-! ### Helper lemmas about the object-level snapshot model -/

theorem getD_set_zero (l : List (List Nat)) (v : List Nat) (a : Nat)
    (ha : 1 ≤ a) : (l.set 0 v).getD a [] = l.getD a [] := by
  cases l with
  | nil => rfl
  | cons x t =>
    cases a with
    | zero => omega
    | succ n => simp [List.getD_cons_succ]

theorem getD_append_len (l : List (List Nat)) (v : List Nat) :
    (l ++ [v]).getD l.length [] = v := by
  induction l with
  | nil => rfl
  | cons x t ih => simpa only [List.cons_append, List.length_cons, List.getD_cons_succ] using ih

theorem applyOpH_heapAt (s : SnapState) (op : Op) (a : Nat) (ha : 1 ≤ a) :
    heapAt (applyOpH s op) a = heapAt s a := by
  cases op <;>
    simp only [applyOpH] <;>
    split <;>
    first
      | rfl
      | (simp only [sMut, heapAt]; exact getD_set_zero _ _ _ ha)

theorem runOpsH_heapAt (ops : List Op) (s : SnapState) (a : Nat) (ha : 1 ≤ a) :
    heapAt (runOpsH s ops) a = heapAt s a := by
  induction ops generalizing s with
  | nil => rfl
  | cons op rest ih =>
    simp only [runOpsH]
    rw [ih (applyOpH s op), applyOpH_heapAt s op a ha]

theorem runOps_maxsize (ops : List Op) (s : OAQueue) :
    (runOps s ops).maxsize = s.maxsize := by
  induction ops generalizing s with
  | nil => rfl
  | cons op rest ih =>
    simp only [runOps]
    cases happ : applyOp s op with
    | none => simpa using ih s
    | some s1 =>
      have := applyOp_maxsize s op s1 happ
      simpa [this] using ih s1

theorem dropLast_append_getLast?_eq (l : List Nat) (x : Nat)
    (h : l.getLast? = some x) : l.dropLast ++ [x] = l := by
  rcases List.eq_nil_or_concat l with rfl | ⟨l2, a, rfl⟩
  · simp at h
  · simp only [List.concat_eq_append] at h ⊢
    rw [List.getLast?_concat] at h
    cases h
    rw [List.dropLast_concat]

/-! ### Claim theorems -/

/-- Claim C10: indexed assignment on the observable queue is always rejected:
for every queue state, index, and value, `__setitem__` raises
`NotImplementedError` and leaves the queue contents and the cached snapshot
unchanged. -/
theorem setitem_always_rejected (s : OAQueue) (i v : Nat) :
    (setitemOp s i v).1 = Except.error QErr.notImplemented ∧
    (setitemOp s i v).2.queue = s.queue ∧
    (setitemOp s i v).2.cache = s.cache ∧
    (setitemOp s i v).2 = s :=
  ⟨rfl, rfl, rfl, rfl⟩

/-- Claim C4, counterexample: constructing with capacity `-1` raises nothing
and produces a usable queue — it is not full and `put_nowait(7)` succeeds,
contradicting the claim that every non-positive capacity raises
`CapacityMisconfiguredError` and produces no usable queue. -/
theorem ctor_neg_cap_usable :
    fullQ (mkQueue (-1)) = false ∧
    ∃ s1, putNowait (mkQueue (-1)) 7 = Except.ok s1 ∧ s1.queue = [7] :=
  ⟨rfl, ⟨_, rfl, rfl⟩⟩

/-- Claim C4, amended: the constructor performs no capacity validation; a
non-positive capacity is accepted and means unbounded — after any sequence of
completed operations the queue is never full and an insertion always
succeeds. -/
theorem ctor_nonpos_unbounded (c : Int) (hc : c ≤ 0) (ops : List Op) (x : Nat) :
    (runOps (mkQueue c) ops).maxsize = c ∧
    fullQ (runOps (mkQueue c) ops) = false ∧
    ∃ s1, putNowait (runOps (mkQueue c) ops) x = Except.ok s1 := by
  have hm : (runOps (mkQueue c) ops).maxsize = c := runOps_maxsize ops (mkQueue c)
  have hfull : fullQ (runOps (mkQueue c) ops) = false := by
    simp [fullQ, hm, hc]
  refine ⟨hm, hfull, ?_⟩
  simp only [putNowait, hfull, Bool.false_eq_true, if_false]
  exact ⟨_, rfl⟩

/-- Witness for `ctor_nonpos_unbounded` at capacity `-5` with two puts. -/
theorem ctor_nonpos_unbounded_w :
    (runOps (mkQueue (-5)) [Op.put 1, Op.put 2]).maxsize = -5 ∧
    fullQ (runOps (mkQueue (-5)) [Op.put 1, Op.put 2]) = false ∧
    ∃ s1, putNowait (runOps (mkQueue (-5)) [Op.put 1, Op.put 2]) 3 = Except.ok s1 :=
  ctor_nonpos_unbounded (-5) (by decide) [Op.put 1, Op.put 2] 3

/-- Claim C2, evidence of the code bug: on a capacity-1 queue with one pending
consumer waiter (future id 0), a completed `unshift(5)` inserts the item but
leaves the waiter list and the waiter's future untouched — no consumer is
woken, so the suspended `get()` hangs.  By contrast `put(5)` on the same state
wakes the waiter, as `put_nowait` calls `_wakeup_next(self._getters)`. -/
theorem unshift_no_consumer_wakeup :
    (∃ s1, unshiftNow waitingConsumerState 5 = some s1 ∧
      s1.queue = [5] ∧ s1.getters = [0] ∧ s1.futs 0 = FutStatus.pending ∧
      firstPending s1.getters s1.futs = some 0) ∧
    (∃ s2, putNow waitingConsumerState 5 = some s2 ∧
      s2.queue = [5] ∧ s2.getters = [] ∧ s2.futs 0 = FutStatus.woken) :=
  ⟨⟨_, rfl, rfl, rfl, rfl, rfl⟩, ⟨_, rfl, rfl, rfl, rfl⟩⟩

/-- Claim C1, counterexample: `pop()` on an empty queue raises `IndexError`
(the bare `self._queue.pop()` on an empty deque) instead of suspending until
an item arrives. -/
theorem pop_raises_on_empty :
    popOp (mkQueue 1) = Except.error QErr.indexError :=
  rfl

/-- Claim C1, amended: `pop` physically removes the back item and invalidates
the snapshot cache, but on an empty queue it raises `IndexError` rather than
suspending, and it never performs `release_after_consume` — the producer
waiter list and every future status are left untouched, so no blocked
producer is woken. -/
theorem pop_removes_back (s : OAQueue) :
    (s.queue = [] → popOp s = Except.error QErr.indexError) ∧
    (s.queue ≠ [] → ∃ x s1, popOp s = Except.ok (x, s1) ∧
      s1.queue ++ [x] = s.queue ∧ s1.cache = none ∧
      s1.putters = s.putters ∧ s1.getters = s.getters ∧
      (∀ i, s1.futs i = s.futs i) ∧ s1.maxsize = s.maxsize ∧
      s1.unfinished = s.unfinished) := by
  constructor
  · intro h
    simp [popOp, h]
  · intro h
    cases hq : s.queue.getLast? with
    | none =>
      exact absurd (List.getLast?_eq_none_iff.mp hq) h
    | some x =>
      refine ⟨x, { s with queue := s.queue.dropLast, cache := none },
        by simp [popOp, hq], ?_, rfl, rfl, rfl, fun i => rfl, rfl, rfl⟩
      exact dropLast_append_getLast?_eq s.queue x hq

/-- Witness for `pop_removes_back`: the empty case at `mkQueue 1` and the
non-empty case at a queue holding `[8, 9]`. -/
theorem pop_removes_back_w :
    popOp (mkQueue 1) = Except.error QErr.indexError ∧
    (∃ x s1, popOp { mkQueue 1 with queue := [8, 9] } = Except.ok (x, s1) ∧
      s1.queue ++ [x] = ({ mkQueue 1 with queue := [8, 9] } : OAQueue).queue ∧
      s1.cache = none ∧
      s1.putters = ({ mkQueue 1 with queue := [8, 9] } : OAQueue).putters ∧
      s1.getters = ({ mkQueue 1 with queue := [8, 9] } : OAQueue).getters ∧
      (∀ i, s1.futs i = ({ mkQueue 1 with queue := [8, 9] } : OAQueue).futs i) ∧
      s1.maxsize = ({ mkQueue 1 with queue := [8, 9] } : OAQueue).maxsize ∧
      s1.unfinished = ({ mkQueue 1 with queue := [8, 9] } : OAQueue).unfinished) :=
  ⟨(pop_removes_back (mkQueue 1)).1 rfl,
    (pop_removes_back { mkQueue 1 with queue := [8, 9] }).2 (by simp)⟩

/-- Claim C5: for every queue constructed with finite positive capacity and
every sequence of completed operations, `0 ≤ size ≤ capacity` holds — a
completed `put` or `unshift` never leaves more than `capacity` items. -/
theorem capacity_invariant (c : Int) (hc : 0 < c) (ops : List Op) :
    0 ≤ ((runOps (mkQueue c) ops).queue.length : Int) ∧
    ((runOps (mkQueue c) ops).queue.length : Int) ≤ c := by
  have h := runOps_capacity ops (mkQueue c) hc (by simp [qsize, mkQueue]; omega)
  exact ⟨Int.natCast_nonneg _, h.1⟩

/-- Witness for `capacity_invariant`: capacity 2 with three puts and a get. -/
theorem capacity_invariant_w :
    0 ≤ ((runOps (mkQueue 2) [Op.put 1, Op.put 2, Op.put 3, Op.get]).queue.length : Int) ∧
    ((runOps (mkQueue 2) [Op.put 1, Op.put 2, Op.put 3, Op.get]).queue.length : Int) ≤ 2 :=
  capacity_invariant 2 (by decide) [Op.put 1, Op.put 2, Op.put 3, Op.get]

/-- Claim C6: FIFO order — on any queue that is empty and can hold three
items (unbounded or capacity at least 3), `enqueue(a); enqueue(b);
enqueue(c)` followed by three `dequeue()` calls returns `a, b, c`. -/
theorem fifo_order (a b c : Nat) (s : OAQueue) (hq : s.queue = [])
    (hcap : s.maxsize ≤ 0 ∨ 3 ≤ s.maxsize) :
    fifo3 s a b c = some [a, b, c] := by
  obtain ⟨ms, q, g, p, f, ch, u⟩ := s
  simp only at hq hcap
  subst hq
  rcases hcap with h | h
  · have hpos : ¬ (0 : Int) < ms := by omega
    simp [fifo3, putNow, putNowait, getNow, getNowait, fullQ, emptyQ, oaPut,
      oaGet, qsize, h, hpos]
  · have h0 : ¬ ms ≤ 0 := by omega
    have h1 : ¬ ms ≤ (1 : Int) := by omega
    have h2 : ¬ ms ≤ (2 : Int) := by omega
    simp [fifo3, putNow, putNowait, getNow, getNowait, fullQ, emptyQ, oaPut,
      oaGet, qsize, h0, h1, h2]

/-- Witness for `fifo_order` at an unbounded empty queue. -/
theorem fifo_order_w : fifo3 (mkQueue 0) 4 5 6 = some [4, 5, 6] :=
  fifo_order 4 5 6 (mkQueue 0) rfl (Or.inl (by decide))

/-- Claim C7: double-ended symmetry — on any empty queue that can hold two
items, `push_front(a); push_front(b)` followed by two `dequeue()` calls
yields `b, a`, and `enqueue(a); enqueue(b)` followed by two `pop_back()`
calls yields `b, a`. -/
theorem double_ended_symmetry (a b : Nat) (s : OAQueue) (hq : s.queue = [])
    (hcap : s.maxsize ≤ 0 ∨ 2 ≤ s.maxsize) :
    unshift2get2 s a b = some [b, a] ∧ put2pop2 s a b = some [b, a] := by
  obtain ⟨ms, q, g, p, f, ch, u⟩ := s
  simp only at hq hcap
  subst hq
  rcases hcap with h | h
  · have hpos : ¬ (0 : Int) < ms := by omega
    constructor
    · simp [unshift2get2, unshiftNow, getNow, getNowait, fullQ, emptyQ,
        oaGet, qsize, h, hpos]
    · simp [put2pop2, putNow, putNowait, popOp, fullQ, emptyQ, oaPut,
        qsize, h, hpos]
  · have h0 : ¬ ms ≤ 0 := by omega
    have h1 : ¬ ms ≤ (1 : Int) := by omega
    constructor
    · simp [unshift2get2, unshiftNow, getNow, getNowait, fullQ, emptyQ,
        oaGet, qsize, h0, h1]
    · simp [put2pop2, putNow, putNowait, popOp, fullQ, emptyQ, oaPut,
        qsize, h0, h1]

/-- Witness for `double_ended_symmetry` at an unbounded empty queue. -/
theorem double_ended_symmetry_w :
    unshift2get2 (mkQueue 0) 7 8 = some [8, 7] ∧
    put2pop2 (mkQueue 0) 7 8 = some [8, 7] :=
  double_ended_symmetry 7 8 (mkQueue 0) rfl (Or.inl (by decide))

/-- Claim C8: every completed mutating operation (`put`, `get`, `unshift`,
`pop`) leaves the snapshot cache invalidated, so the next snapshot access
(and hence membership tests) is computed from the then-current contents. -/
theorem mutation_invalidates_view (s : OAQueue) (op : Op) (s1 : OAQueue)
    (h : applyOp s op = some s1) :
    s1.cache = none ∧ (viewOp s1).1 = s1.queue ∧
    (∀ x, (containsOp s1 x).1 = s1.queue.contains x) := by
  have hc : s1.cache = none := by
    cases op with
    | put x =>
      by_cases hf : fullQ s
      · simp [applyOp, putNow, putNowait, hf] at h
      · simp only [applyOp, putNow, putNowait, if_neg hf] at h
        cases h
        rfl
    | get =>
      by_cases he : emptyQ s
      · simp [applyOp, getNow, getNowait, he] at h
      · simp only [applyOp, getNow, getNowait, if_neg he, Option.map] at h
        cases h
        rfl
    | unshift x =>
      by_cases hf : fullQ s
      · simp [applyOp, unshiftNow, hf] at h
      · simp only [applyOp, unshiftNow, if_neg hf, Option.some.injEq] at h
        cases h
        rfl
    | pop =>
      cases hq : s.queue.getLast? with
      | none => simp [applyOp, popOp, hq] at h
      | some x =>
        simp only [applyOp, popOp, hq, Option.some.injEq] at h
        cases h
        rfl
  refine ⟨hc, ?_, ?_⟩
  · simp [viewOp, hc]
  · intro x
    simp [containsOp, viewOp, hc]

/-- Witness for `mutation_invalidates_view`: `put(4)` on `mkQueue 2`. -/
theorem mutation_invalidates_view_w :
    c8state.cache = none ∧ (viewOp c8state).1 = c8state.queue ∧
    (∀ x, (containsOp c8state x).1 = c8state.queue.contains x) :=
  mutation_invalidates_view (mkQueue 2) (Op.put 4) c8state rfl

/-- Claim C3: a `push_front` (`unshift`) suspended on a full queue and then
cancelled removes its future from the producer waiter list; if the future had
already been woken when the cancellation hit (wake/cancel race) and the queue
has room, the wake is forwarded to the next pending producer waiter; the
caller sees the cancellation re-raised; and the queue contents and the
snapshot cache are exactly as before (no item inserted, no slot lost). -/
theorem unshift_cancel_safe (s : OAQueue) (p : Nat)
    (hcount : s.putters.count p ≤ 1) :
    (unshiftCancel s p).1 = QErr.cancelledErr ∧
    (unshiftCancel s p).2.queue = s.queue ∧
    (unshiftCancel s p).2.cache = s.cache ∧
    p ∉ (unshiftCancel s p).2.putters ∧
    (s.futs p = FutStatus.woken → fullQ s = false →
      ∀ w, firstPending (removeFirst s.putters p) s.futs = some w →
        (unshiftCancel s p).2.futs w = FutStatus.woken) := by
  simp only [unshiftCancel]
  split
  case isTrue hcond =>
    refine ⟨rfl, rfl, rfl, ?_, ?_⟩
    · intro hmem
      exact not_mem_removeFirst s.putters p hcount
        (mem_of_mem_wakeupNext_fst _ _ p hmem)
    · intro hwoken hfull w hfp
      have hpt : ∀ x, setFut s.futs p (cancelFut (s.futs p)) x = s.futs x := by
        intro x
        by_cases hx : x = p
        · subst hx
          simp [setFut, hwoken, cancelFut]
        · simp [setFut, hx]
      have hfp2 : firstPending (removeFirst s.putters p)
          (setFut s.futs p (cancelFut (s.futs p))) = some w := by
        rw [firstPending_congr _ _ s.futs (fun x _ => hpt x)]
        exact hfp
      exact wakeupNext_wakes _ _ w hfp2
  case isFalse hcond =>
    refine ⟨rfl, rfl, rfl, ?_, ?_⟩
    · exact not_mem_removeFirst s.putters p hcount
    · intro hwoken hfull w hfp
      exfalso
      apply hcond
      constructor
      · exact hfull
      · simp [setFut, hwoken, cancelFut]

/-- Witness for `unshift_cancel_safe`: a non-full queue with producer waiters
`[0, 1]`, future 0 woken-then-cancelled; the wake is forwarded to future 1. -/
theorem unshift_cancel_safe_w :
    ((unshiftCancel c3state 0).1 = QErr.cancelledErr ∧
      (unshiftCancel c3state 0).2.queue = c3state.queue ∧
      (unshiftCancel c3state 0).2.cache = c3state.cache ∧
      0 ∉ (unshiftCancel c3state 0).2.putters ∧
      (c3state.futs 0 = FutStatus.woken → fullQ c3state = false →
        ∀ w, firstPending (removeFirst c3state.putters 0) c3state.futs = some w →
          (unshiftCancel c3state 0).2.futs w = FutStatus.woken)) ∧
    (unshiftCancel c3state 0).2.futs 1 = FutStatus.woken :=
  ⟨unshift_cancel_safe c3state 0 (by decide),
    (unshift_cancel_safe c3state 0 (by decide)).2.2.2.2 rfl rfl 1 (by decide)⟩

/-- Claim C9: snapshot immutability — under the object-level model where
`view` stores `self._queue.copy()` at a fresh address, the snapshot returned
by `view` holds exactly the queue contents at the moment of creation, and no
later sequence of queue operations ever changes the returned snapshot
object. -/
theorem snapshot_immutable (s : SnapState) (h : SnapInv s) (ops : List Op) :
    heapAt (viewH s).2 (viewH s).1 = sQueue s ∧
    heapAt (runOpsH (viewH s).2 ops) (viewH s).1 = sQueue s := by
  cases hc : s.cacheAddr with
  | some a =>
    have hinv := h.2 a hc
    have hview : viewH s = (a, s) := by simp [viewH, hc]
    rw [hview]
    exact ⟨hinv.2.2, by rw [runOpsH_heapAt ops s a hinv.1]; exact hinv.2.2⟩
  | none =>
    have hview : viewH s =
        (s.heap.length,
          { s with heap := s.heap ++ [sQueue s],
                   cacheAddr := some s.heap.length }) := by
      simp [viewH, hc]
    rw [hview]
    have hfresh : heapAt
        ({ s with heap := s.heap ++ [sQueue s],
                  cacheAddr := some s.heap.length } : SnapState)
        s.heap.length = sQueue s := by
      simp only [heapAt]
      exact getD_append_len s.heap (sQueue s)
    refine ⟨hfresh, ?_⟩
    rw [runOpsH_heapAt ops _ s.heap.length h.1]
    exact hfresh

/-- Witness for `snapshot_immutable`: live queue `[1, 2]`, snapshot taken,
then a put and a get run on the live queue. -/
theorem snapshot_immutable_w :
    heapAt (viewH snapExample).2 (viewH snapExample).1 = sQueue snapExample ∧
    heapAt (runOpsH (viewH snapExample).2 [Op.put 7, Op.get])
      (viewH snapExample).1 = sQueue snapExample :=
  snapshot_immutable snapExample
    ⟨by decide, fun a ha => by simp [snapExample] at ha⟩
    [Op.put 7, Op.get]

end TheAlchemist
